import Mathlib

/-!
Verification of the Quench batch registry, run orchestrator and snapshot store.

The development shallowly embeds the TypeScript sources:
* `src/module/quench.ts` (the `Quench` hub class: `registerBatch`, `getBatch`,
  `runAllBatches`, `runSelectedBatches`, `abort`);
* `src/module/utils/quench-utils.ts` (`getBatchNameParts`, `getTestState`,
  `getSuiteState`, `getGame`, `localize`);
* `src/module/apps/quench-results.ts` (`handleTestFail`, the snapshot-update UI flag).

The snapshot manager (`quench-snapshot.ts`) is not among the provided sources; its
operations are modelled from the specification and are marked as such below.

JavaScript `Map` objects are modelled as association lists in insertion order
(`mapGet` / `mapSet` / `mapHas`), string indices and slices by `jsIndexOf` / `jsSlice`
with JavaScript index normalisation semantics.
-/

section MapModel

variable {α : Type} [DecidableEq α] {β : Type}

/-- Model of `Map.prototype.get`: first binding of the key, if any. -/
def mapGet : List (α × β) → α → Option β
  | [], _ => none
  | e :: rest, k => if e.1 = k then some e.2 else mapGet rest k

/-- Model of `Map.prototype.has`. -/
def mapHas (m : List (α × β)) (k : α) : Bool :=
  (mapGet m k).isSome

/-- Model of `Map.prototype.set`: replace the binding in place if the key exists (keeping the
insertion position), otherwise append a new binding at the end. -/
def mapSet : List (α × β) → α → β → List (α × β)
  | [], k, v => [(k, v)]
  | e :: rest, k, v => if e.1 = k then (k, v) :: rest else e :: mapSet rest k v

/-- Number of bindings of a key in the map (well-formed maps have at most one). -/
def countKey (m : List (α × β)) (k : α) : Nat :=
  m.countP (fun e => e.1 = k)

theorem mapGet_mapSet_self (m : List (α × β)) (k : α) (v : β) :
    mapGet (mapSet m k v) k = some v := by
  induction m with
  | nil => simp [mapGet, mapSet]
  | cons e rest ih =>
    by_cases h : e.1 = k
    · simp [mapGet, mapSet, h]
    · simp [mapGet, mapSet, h, ih]

theorem mapGet_mapSet_ne (m : List (α × β)) (k k' : α) (v : β) (h : k ≠ k') :
    mapGet (mapSet m k v) k' = mapGet m k' := by
  induction m with
  | nil => simp [mapGet, mapSet, h]
  | cons e rest ih =>
    by_cases he : e.1 = k
    · simp only [mapSet, if_pos he, mapGet, if_neg h, he]
    · simp only [mapSet, if_neg he, mapGet]
      by_cases he' : e.1 = k'
      · simp [he']
      · simp [he', ih]

/-- The key sequence of a map after `set`: unchanged if the key was present, the key
appended otherwise. -/
theorem keys_mapSet (m : List (α × β)) (k : α) (v : β) :
    (mapSet m k v).map Prod.fst =
      if k ∈ m.map Prod.fst then m.map Prod.fst else m.map Prod.fst ++ [k] := by
  induction m with
  | nil => simp [mapSet]
  | cons e rest ih =>
    by_cases he : e.1 = k
    · simp [mapSet, he]
    · have hne : ¬ k = e.1 := fun hh => he hh.symm
      by_cases hmem : k ∈ rest.map Prod.fst
      · simp [mapSet, he, ih, hmem, hne]
      · simp [mapSet, he, ih, hmem, hne]

theorem countKey_eq_count_keys (m : List (α × β)) (k : α) :
    countKey m k = (m.map Prod.fst).count k := by
  induction m with
  | nil => simp [countKey]
  | cons e rest ih =>
    simp only [countKey, List.countP_cons, List.map_cons, List.count_cons] at *
    by_cases he : e.1 = k
    · simp [he, ih]
    · have hne : ¬ k = e.1 := fun hh => he hh.symm
      simp [he, ih, hne]

theorem countKey_mapSet (m : List (α × β)) (k : α) (v : β)
    (h : (m.map Prod.fst).Nodup) : countKey (mapSet m k v) k = 1 := by
  rw [countKey_eq_count_keys, keys_mapSet]
  by_cases hmem : k ∈ m.map Prod.fst
  · simp only [if_pos hmem]
    exact List.count_eq_one_of_mem h hmem
  · simp only [if_neg hmem, List.count_append]
    simp [List.count_eq_zero_of_not_mem hmem]

theorem nodup_keys_mapSet (m : List (α × β)) (k : α) (v : β)
    (h : (m.map Prod.fst).Nodup) : ((mapSet m k v).map Prod.fst).Nodup := by
  rw [keys_mapSet]
  by_cases hmem : k ∈ m.map Prod.fst
  · simpa [hmem] using h
  · simp only [if_neg hmem]
    simp [List.nodup_append, h, hmem]

end MapModel

section JsString

/-- Accumulator form of `String.prototype.indexOf` restricted to a single character
needle: the index of the first occurrence, or `-1` when absent. -/
def jsIndexOfAux (c : Char) : List Char → Nat → Int
  | [], _ => -1
  | x :: xs, i => if x = c then (i : Int) else jsIndexOfAux c xs (i + 1)

/-- Model of `String.prototype.indexOf` for a one-character search string. -/
def jsIndexOf (s : List Char) (c : Char) : Int :=
  jsIndexOfAux c s 0

/-- Model of `String.prototype.slice(start, end)` with JavaScript index normalisation:
negative indices count from the end and both indices are clamped to `[0, length]`. -/
def jsSlice (s : List Char) (start : Int) (stop? : Option Int) : List Char :=
  let len : Int := (s.length : Int)
  let clamp : Int → Nat := fun i => (if i < 0 then max (len + i) 0 else min i len).toNat
  (s.take (clamp (stop?.getD len))).drop (clamp start)

theorem jsIndexOfAux_spec (c : Char) (s : List Char) (n : Nat) :
    jsIndexOfAux c s n =
      if c ∈ s then ((n + (s.takeWhile (fun x => x != c)).length : Nat) : Int) else -1 := by
  induction s generalizing n with
  | nil => simp [jsIndexOfAux]
  | cons x xs ih =>
    by_cases hx : x = c
    · subst hx
      simp [jsIndexOfAux, List.takeWhile]
    · have hxc : (x != c) = true := by simp [hx]
      have hmem : (c ∈ x :: xs) ↔ c ∈ xs := by
        constructor
        · intro hh
          rcases List.mem_cons.mp hh with h1 | h1
          · exact absurd h1.symm hx
          · exact h1
        · exact fun hh => List.mem_cons_of_mem x hh
      simp only [jsIndexOfAux, if_neg hx, ih, List.takeWhile_cons, hxc, hmem]
      by_cases hc : c ∈ xs
      · simp only [if_pos hc, if_true, List.length_cons]
        push_cast
        ring
      · simp [hc]

/-- Splitting a list at the first occurrence of a character. -/
theorem takeWhile_split (c : Char) (s : List Char) (h : c ∈ s) :
    s = s.takeWhile (fun x => x != c) ++ c :: (s.dropWhile (fun x => x != c)).tail := by
  induction s with
  | nil => cases h
  | cons x xs ih =>
    by_cases hx : x = c
    · subst hx
      simp [List.takeWhile_cons, List.dropWhile_cons]
    · have hxc : (x != c) = true := by simp [hx]
      have hmem : c ∈ xs := by
        rcases List.mem_cons.mp h with hh | hh
        · exact absurd hh.symm hx
        · exact hh
      simp only [List.takeWhile_cons, hxc, List.dropWhile_cons, if_pos rfl]
      simpa using congrArg (x :: ·) (ih hmem)

theorem takeWhile_length_lt (c : Char) (s : List Char) (h : c ∈ s) :
    (s.takeWhile (fun x => x != c)).length < s.length := by
  conv_rhs => rw [takeWhile_split c s h]
  simp

theorem jsIndexOf_of_mem (s : List Char) (c : Char) (h : c ∈ s) :
    jsIndexOf s c = ((s.takeWhile (fun x => x != c)).length : Int) := by
  unfold jsIndexOf
  rw [jsIndexOfAux_spec]
  simp [h]

theorem jsIndexOf_of_not_mem (s : List Char) (c : Char) (h : c ∉ s) :
    jsIndexOf s c = -1 := by
  unfold jsIndexOf
  rw [jsIndexOfAux_spec]
  simp [h]

theorem jsSlice_take (s : List Char) (i : Nat) (h : i ≤ s.length) :
    jsSlice s 0 (some (i : Int)) = s.take i := by
  simp only [jsSlice, Option.getD_some]
  have h1 : (if (i : Int) < 0 then max ((s.length : Int) + (i : Int)) 0
      else min (i : Int) ((s.length : Int))).toNat = i := by
    rw [if_neg (by omega)]
    omega
  have h2 : (if (0 : Int) < 0 then max ((s.length : Int) + (0 : Int)) 0
      else min (0 : Int) ((s.length : Int))).toNat = 0 := by
    rw [if_neg (by omega)]
    omega
  rw [h1, h2, List.drop_zero]

theorem jsSlice_drop (s : List Char) (i : Nat) (h : i ≤ s.length) :
    jsSlice s (i : Int) none = s.drop i := by
  simp only [jsSlice, Option.getD_none]
  have h1 : (if (s.length : Int) < 0 then max ((s.length : Int) + (s.length : Int)) 0
      else min ((s.length : Int)) ((s.length : Int))).toNat = s.length := by
    rw [if_neg (by omega)]
    omega
  have h2 : (if (i : Int) < 0 then max ((s.length : Int) + (i : Int)) 0
      else min (i : Int) ((s.length : Int))).toNat = i := by
    rw [if_neg (by omega)]
    omega
  rw [h1, h2, List.take_length]

theorem jsSlice_neg_one (s : List Char) :
    jsSlice s 0 (some (-1)) = s.dropLast := by
  simp only [jsSlice, Option.getD_some]
  have h1 : (if (-1 : Int) < 0 then max ((s.length : Int) + (-1 : Int)) 0
      else min (-1 : Int) ((s.length : Int))).toNat = s.length - 1 := by
    rw [if_pos (by omega)]
    omega
  have h2 : (if (0 : Int) < 0 then max ((s.length : Int) + (0 : Int)) 0
      else min (0 : Int) ((s.length : Int))).toNat = 0 := by
    rw [if_neg (by omega)]
    omega
  rw [h1, h2, List.drop_zero, ← List.dropLast_eq_take]

end JsString

section QuenchUtils

/-- Embedding of `getBatchNameParts` from `quench-utils.ts`: split a batch key at the first `"."`
into package name and batch identifier, via `indexOf` and two `slice` calls. -/
def getBatchNameParts (batchKey : String) : String × String :=
  let index := jsIndexOf batchKey.data '.'
  (⟨jsSlice batchKey.data 0 (some index)⟩, ⟨jsSlice batchKey.data (index + 1) none⟩)

/-- Embedding of `RUNNABLE_STATES` from `quench-utils.ts`. -/
inductive RState where
  | inProgress
  | pending
  | success
  | failure
deriving DecidableEq, Repr

/-- The `state` field of a finished mocha test: `"passed"` or `"failed"`. -/
inductive TestResult where
  | passed
  | failed
deriving DecidableEq, Repr

/-- A mocha `Test` as inspected by `getTestState`: its `pending` flag and its
`state` field (`undefined` while the test has not finished). -/
structure MTest where
  pending : Bool
  state : Option TestResult
deriving DecidableEq, Repr

/-- Embedding of `getTestState` from `quench-utils.ts`. -/
def getTestState (test : MTest) : RState :=
  if test.pending then .pending
  else
    match test.state with
    | none => .inProgress
    | some .passed => .success
    | some _ => .failure

/-- A mocha `Suite` as inspected by `getSuiteState`: its `pending` flag, its direct
tests and its direct child suites. -/
inductive MSuite where
  | mk (pending : Bool) (tests : List MTest) (suites : List MSuite)

/-- The `pending` flag of a suite. -/
def MSuite.pending : MSuite → Bool
  | .mk p _ _ => p

/-- The direct tests of a suite. -/
def MSuite.tests : MSuite → List MTest
  | .mk _ ts _ => ts

/-- The direct child suites of a suite. -/
def MSuite.suites : MSuite → List MSuite
  | .mk _ _ ss => ss

mutual

/-- Embedding of `getSuiteState` from `quench-utils.ts`: pending suites are `pending`; otherwise a
suite fails when some direct test fails or some child suite recursively fails, and
succeeds otherwise. -/
def getSuiteState : MSuite → RState
  | .mk pending tests suites =>
    if pending then .pending
    else
      let allTestSucceed := (tests.map getTestState).all (fun t => t != RState.failure)
      if !allTestSucceed then .failure
      else
        let suiteStates := suiteStatesOf suites
        if suiteStates.all (fun t => t != RState.failure) then .success else .failure

/-- The recursive spine of `suite.suites.map((element) => getSuiteState(element))`. -/
def suiteStatesOf : List MSuite → List RState
  | [] => []
  | s :: rest => getSuiteState s :: suiteStatesOf rest

end

theorem suiteStatesOf_eq_map (l : List MSuite) :
    suiteStatesOf l = l.map getSuiteState := by
  induction l with
  | nil => simp [suiteStatesOf]
  | cons s rest ih => simp [suiteStatesOf, ih]

/-- A mocha runnable as declared through the run context: a suite (with the
`_quench_parentBatch` and `_quench_batchRoot` markers Quench attaches) or a test
(with the `_quench_parentBatch` marker). -/
inductive Runnable where
  | suite (title : String) (parentBatch : Option String) (batchRoot : Bool)
      (children : List Runnable)
  | test (title : String) (parentBatch : Option String)

/-- The title of a runnable. -/
def Runnable.title : Runnable → String
  | .suite t _ _ _ => t
  | .test t _ => t

/-- The `_quench_parentBatch` marker of a runnable. -/
def Runnable.parentBatch : Runnable → Option String
  | .suite _ p _ _ => p
  | .test _ p => p

/-- The `_quench_batchRoot` marker (only ever set on suites). -/
def Runnable.batchRoot : Runnable → Bool
  | .suite _ _ b _ => b
  | .test _ _ => false

/-- The assignment `result._quench_parentBatch = key` performed by the wrapped
declaration functions. -/
def Runnable.withParentBatch : Runnable → String → Runnable
  | .suite t _ b c, key => .suite t (some key) b c
  | .test t _, key => .test t (some key)

/-- The assignment `testBatchRoot._quench_batchRoot = true` (applied to the wrapper
suite returned by `context.describe`). -/
def Runnable.withBatchRoot : Runnable → Runnable
  | .suite t p _ c => .suite t p true c
  | .test t p => .test t p

/-- The base mocha `describe`: a suite built from a title and the children its body
declares, carrying no Quench markers. -/
def mochaDescribe : String × List Runnable → Runnable :=
  fun arg => .suite arg.1 none false arg.2

/-- The base mocha `it`: a test built from a title, carrying no Quench markers. -/
def mochaIt : String → Runnable :=
  fun title => .test title none

/-- Embedding of `quenchify` from `runSelectedBatches`: wrap a declaration function so that its
result is tagged with the owning batch key. -/
def quenchify {A : Type} (fn : A → Runnable) (key : String) : A → Runnable :=
  fun args => (fn args).withParentBatch key

/-- The per-batch run context: the suite/test declaration primitives handed to a
registration callback of a batch (the hook and assertion entries of the real context
belong to the external engine and assertion library and carry no Quench logic). -/
structure QuenchTestContext where
  describe : String × List Runnable → Runnable
  it : String → Runnable

/-- The context built for one batch inside the `runSelectedBatches` loop:
`{ ...baseContext, describe: quenchify(describe, key), it: quenchify(it, key) }`. -/
def mkContext (key : String) : QuenchTestContext :=
  { describe := quenchify mochaDescribe key, it := quenchify mochaIt key }

/-- A batch registration callback: declares the top-level batch runnables through
the context, or throws synchronously. -/
def RegistrationFn : Type :=
  QuenchTestContext → Except String (List Runnable)

/-- Embedding of `BatchData`: one entry of the `_testBatches` map. -/
structure BatchData where
  displayName : String
  fn : RegistrationFn
  snapBaseDir : String
  preSelected : Bool

/-- The `_testBatches` map in insertion order. -/
def Registry : Type :=
  List (String × BatchData)

/-- The options argument of `registerBatch`; omitted fields are `none`. -/
structure QuenchBatchRegistrationOptions where
  displayName : Option String := none
  snapBaseDir : Option String := none
  preSelected : Option Bool := none

/-- A user-visible notification (`ui.notifications`): non-fatal by construction. -/
inductive Notification where
  | error (msg : String)
  | warn (msg : String)
deriving DecidableEq, Repr

/-- The host `game` global: either uninitialized or carrying the data `registerBatch`
consults (the package names of active modules and the id of the active system). -/
structure GameData where
  modules : List String
  systemId : String

/-- Embedding of `getGame` from `quench-utils.ts`: return the initialized `game` or throw. -/
def getGame : Option GameData → Except String GameData
  | some g => .ok g
  | none => .error "Game is not initialized yet!"

/-- Embedding of `localize` from `quench-utils.ts`: format the translation key under the `QUENCH.`
prefix (the variable data is irrelevant to the model). -/
def localize (key : String) : String :=
  "QUENCH." ++ key

end QuenchUtils

section SnapshotStore

/-- A snapshot record held in memory: the stable serialization of the last accepted
value and whether a pending write has not yet been persisted. -/
structure SnapRecord where
  value : String
  dirty : Bool
deriving DecidableEq, Repr

/-- Modelled from the spec: the snapshot store of `quench-snapshot.ts` (not among the
provided sources). `enableUpdates` is the externally settable sticky flag; `cache`
holds the in-memory records keyed by batch snapshot directory and test identity;
`loadedDirs` records which directories have been read; `files` is the persisted
backing storage, a mapping from (directory, identity) to serialized value. -/
structure QuenchSnapshotStore where
  enableUpdates : Option Bool := none
  loadedDirs : List String := []
  cache : List ((String × String) × SnapRecord) := []
  files : List ((String × String) × String) := []
deriving DecidableEq, Repr

/-- Modelled from the spec: `QuenchSnapshotManager.getDefaultSnapDir`, a pure,
deterministic function from a batch key to a directory path. -/
def getDefaultSnapDir (key : String) : String :=
  "__snapshots__/" ++ key

/-- Modelled from the spec: the would-be backing file path for a snapshot identity
inside a batch snapshot directory, carried by a missing-snapshot error. -/
def snapFilePath (dir identity : String) : String :=
  dir ++ "/" ++ identity ++ ".json"

/-- Modelled from the spec: the stable, deterministic serialization applied to actual
values before storage and comparison; values are modelled in serialized form. -/
def serializeValue (v : String) : String :=
  v

/-- The records the backing files of a directory contain, as freshly loaded (not dirty). -/
def fileEntriesFor (files : List ((String × String) × String)) (dir : String) :
    List ((String × String) × SnapRecord) :=
  files.filterMap (fun e => if e.1.1 = dir then some (e.1, ⟨e.2, false⟩) else none)

/-- Loading one directory into the cache, skipped when it is already cached. -/
def loadDirStep (st : QuenchSnapshotStore) (dir : String) : QuenchSnapshotStore :=
  if st.loadedDirs.contains dir then st
  else
    { st with
      loadedDirs := st.loadedDirs ++ [dir],
      cache := st.cache ++ fileEntriesFor st.files dir }

/-- Modelled from the spec: `loadBatchSnaps` reads every snapshot directory referenced
by the selected batches that is not already cached into memory; caching is per
directory, so the operation is idempotent per directory. -/
def loadBatchSnaps (registry : Registry) (store : QuenchSnapshotStore)
    (batchKeys : List String) : QuenchSnapshotStore :=
  let dirs := batchKeys.filterMap (fun k => (mapGet registry k).map (fun b => b.snapBaseDir))
  dirs.foldl loadDirStep store

/-- Writing one cached record into the backing storage when it is dirty. -/
def persistStep (fs : List ((String × String) × String))
    (e : (String × String) × SnapRecord) : List ((String × String) × String) :=
  if e.2.dirty then mapSet fs e.1 e.2.value else fs

/-- Modelled from the spec: `updateSnapshots` merges the value of every dirty record into
its backing file (preserving unrelated entries) and clears all dirty flags. -/
def QuenchSnapshotStore.updateSnapshots (store : QuenchSnapshotStore) :
    QuenchSnapshotStore :=
  { store with
    files := store.cache.foldl persistStep store.files,
    cache := store.cache.map (fun e => (e.1, ⟨e.2.value, false⟩)) }

/-- An error attached to a failing test, as discriminated by `handleTestFail`: either
the distinguished `MissingSnapshotError` carrying the expected file path, or a generic
assertion error (with serialized actual/expected forms and the `snapshotError` flag a
snapshot mismatch sets). -/
inductive TestError where
  | missingSnapshot (path : String)
  | assertion (actual expected : String) (snapshotError : Bool)
deriving DecidableEq, Repr

/-- Whether an error has a truthy `snapshotError` field (`"snapshotError" in error &&
error.snapshotError`). -/
def TestError.snapshotErrorFlag : TestError → Bool
  | .missingSnapshot _ => false
  | .assertion _ _ s => s

/-- The check `error instanceof MissingSnapshotError`. -/
def TestError.isMissingSnapshot : TestError → Bool
  | .missingSnapshot _ => true
  | .assertion _ _ _ => false

/-- Modelled from the spec: the `compare` assertion primitive of the snapshot store.
In update mode it stores the serialized actual value as a dirty record and succeeds;
otherwise a missing record fails with a `MissingSnapshotError` carrying the would-be
file path, and an existing record is compared textually against the serialized actual
value. -/
def compareSnapshot (store : QuenchSnapshotStore) (updateMode : Bool)
    (dir identity actual : String) : Except TestError Unit × QuenchSnapshotStore :=
  if updateMode then
    (.ok (),
      { store with
        cache := mapSet store.cache (dir, identity) ⟨serializeValue actual, true⟩ })
  else
    match mapGet store.cache (dir, identity) with
    | none => (.error (.missingSnapshot (snapFilePath dir identity)), store)
    | some record =>
      if serializeValue actual = record.value then (.ok (), store)
      else (.error (.assertion (serializeValue actual) record.value true), store)

/-- The snapshot-relevant effect of `QuenchResults.handleTestFail` (from
`quench-results.ts`): the `_enableSnapshotUpdates` flag is raised when the error has a
truthy `snapshotError` field or is a `MissingSnapshotError`. -/
def handleTestFail (enableSnapshotUpdates : Bool) (error : TestError) : Bool :=
  if error.snapshotErrorFlag || error.isMissingSnapshot then true
  else enableSnapshotUpdates

end SnapshotStore

section SnapshotStoreLemmas

theorem foldl_loadDirStep_enableUpdates (dirs : List String)
    (st : QuenchSnapshotStore) :
    (dirs.foldl loadDirStep st).enableUpdates = st.enableUpdates := by
  induction dirs generalizing st with
  | nil => rfl
  | cons d rest ih =>
    simp only [List.foldl_cons, ih]
    unfold loadDirStep
    by_cases h : d ∈ st.loadedDirs <;> simp [h]

theorem foldl_loadDirStep_files (dirs : List String) (st : QuenchSnapshotStore) :
    (dirs.foldl loadDirStep st).files = st.files := by
  induction dirs generalizing st with
  | nil => rfl
  | cons d rest ih =>
    simp only [List.foldl_cons, ih]
    unfold loadDirStep
    by_cases h : d ∈ st.loadedDirs <;> simp [h]

theorem loadBatchSnaps_enableUpdates (registry : Registry)
    (store : QuenchSnapshotStore) (batchKeys : List String) :
    (loadBatchSnaps registry store batchKeys).enableUpdates = store.enableUpdates :=
  foldl_loadDirStep_enableUpdates _ store

theorem loadBatchSnaps_files (registry : Registry) (store : QuenchSnapshotStore)
    (batchKeys : List String) :
    (loadBatchSnaps registry store batchKeys).files = store.files :=
  foldl_loadDirStep_files _ store

theorem foldl_persistStep_not_mem (cache : List ((String × String) × SnapRecord))
    (fs : List ((String × String) × String)) (k : String × String)
    (h : k ∉ cache.map Prod.fst) :
    mapGet (cache.foldl persistStep fs) k = mapGet fs k := by
  induction cache generalizing fs with
  | nil => rfl
  | cons e rest ih =>
    simp only [List.map_cons, List.mem_cons] at h
    push_neg at h
    simp only [List.foldl_cons, ih _ h.2]
    unfold persistStep
    by_cases hd : e.2.dirty
    · simp only [hd, if_true]
      exact mapGet_mapSet_ne fs e.1 k e.2.value h.1.symm
    · simp [hd]

/-- Every dirty cached record is written to the backing storage by
`updateSnapshots`. -/
theorem updateSnapshots_persists (store : QuenchSnapshotStore)
    (hw : (store.cache.map Prod.fst).Nodup) (k : String × String) (r : SnapRecord)
    (hget : mapGet store.cache k = some r) (hd : r.dirty = true) :
    mapGet store.updateSnapshots.files k = some r.value := by
  unfold QuenchSnapshotStore.updateSnapshots
  simp only []
  revert hw hget
  generalize store.files = fs
  induction store.cache generalizing fs with
  | nil => intro _ hget; cases hget
  | cons e rest ih =>
    intro hw hget
    simp only [List.map_cons, List.nodup_cons] at hw
    simp only [mapGet] at hget
    by_cases he : e.1 = k
    · simp only [if_pos he] at hget
      have hr : e.2 = r := by injection hget
      subst hr
      simp only [List.foldl_cons, persistStep, hd, if_true]
      rw [foldl_persistStep_not_mem rest _ k (by rw [← he]; exact hw.1), he]
      exact mapGet_mapSet_self fs k e.2.value
    · simp only [if_neg he] at hget
      simp only [List.foldl_cons]
      exact ih _ hw.2 hget

/-- The operation `updateSnapshots` clears every dirty flag in the cache. -/
theorem updateSnapshots_clears (store : QuenchSnapshotStore) :
    ∀ e ∈ store.updateSnapshots.cache, e.2.dirty = false := by
  intro e he
  unfold QuenchSnapshotStore.updateSnapshots at he
  simp only [List.mem_map] at he
  rcases he with ⟨e₀, _, rfl⟩
  rfl

end SnapshotStoreLemmas

section QuenchHub

/-- The `BatchData` value `registerBatch` stores: omitted options fall back to the
key, the default snapshot directory and `true` respectively. -/
def storedBatchData (key : String) (fn : RegistrationFn)
    (context : QuenchBatchRegistrationOptions) : BatchData :=
  { displayName := context.displayName.getD key
    fn := fn
    snapBaseDir := context.snapBaseDir.getD (getDefaultSnapDir key)
    preSelected := context.preSelected.getD true }

/-- Embedding of `Quench.registerBatch` (TS source). The key is split into package name and
identifier; `getGame()` is consulted for the known package names (and throws when the
game is not initialized); an unknown package name and a duplicate key each emit a
non-fatal notification; the batch definition is then stored unconditionally. -/
def registerBatch (game? : Option GameData) (batches : Registry) (key : String)
    (fn : RegistrationFn) (context : QuenchBatchRegistrationOptions) :
    Except String (Registry × List Notification) :=
  let packageName := (getBatchNameParts key).1
  match getGame game? with
  | .error e => .error e
  | .ok g =>
    let invalidNotifs :=
      if !((g.modules ++ [g.systemId]).contains packageName) then
        [Notification.error (localize "ERROR.InvalidPackageName")]
      else []
    -- The source passes the already-prefixed key "QUENCH.WARN.BatchAlreadyExists" to
    -- `localize`, which prefixes it again.
    let duplicateNotifs :=
      if mapHas batches key then
        [Notification.warn (localize "QUENCH.WARN.BatchAlreadyExists")]
      else []
    .ok (mapSet batches key (storedBatchData key fn context),
      invalidNotifs ++ duplicateNotifs)

/-- Embedding of `Quench.getBatch`. -/
def getBatch (batches : Registry) (key : String) : Option BatchData :=
  mapGet batches key

/-- The outcome of one wrapper suite body: the top-level runnables the registration
callback declared, or a synchronously thrown error. -/
inductive BodyResult where
  | ok (children : List Runnable)
  | threw (msg : String)

/-- Embedding a callback outcome into a body outcome. -/
def BodyResult.ofExcept : Except String (List Runnable) → BodyResult
  | .ok cs => .ok cs
  | .error e => .threw e

/-- Whether the body outcome fails the wrapper suite. -/
def BodyResult.failed : BodyResult → Bool
  | .ok _ => false
  | .threw _ => true

/-- The runnables a body outcome declared (a thrown body declares nothing). -/
def BodyResult.children : BodyResult → List Runnable
  | .ok cs => cs
  | .threw _ => []

/-- The body of the wrapper suite declared for one selected key (TS source):
`await this._testBatches.get(key)?.fn(context)`. The callback of a registered batch runs
with the tagged context; for an unregistered key the optional chaining turns the
failed lookup into a completed no-op. -/
def batchRootBody (registry : Registry) (key : String) (context : QuenchTestContext) :
    BodyResult :=
  match mapGet registry key with
  | some batch => .ofExcept (batch.fn context)
  | none => .ok []

/-- The body of the wrapper suite in the older JS source:
`await this._testBatches.get(key).fn(context)`, which throws a `TypeError` when the
key is unregistered. Kept for reference; it is not the current behavior. -/
def batchRootBodyLegacyJs (registry : Registry) (key : String)
    (context : QuenchTestContext) : BodyResult :=
  match mapGet registry key with
  | some batch => .ofExcept (batch.fn context)
  | none => .threw "TypeError: this._testBatches.get(...) is undefined"

/-- One wrapper suite declared by the `runSelectedBatches` loop, together with its
body outcome. -/
structure DeclaredRoot where
  runnable : Runnable
  body : BodyResult

/-- Declare the wrapper suite for one selected key: build the batch context, run the
body, declare `context.describe(`key++"_root"`, body)` and set the batch-root
marker. -/
def declareBatchRoot (registry : Registry) (key : String) : DeclaredRoot :=
  let context := mkContext key
  let body := batchRootBody registry key context
  { runnable := (context.describe (key ++ "_root", body.children)).withBatchRoot
    body := body }

/-- The declaration phase of `runSelectedBatches`: one wrapper suite per selected
key, in sequence order. -/
def declareBatches (registry : Registry) (batchKeys : List String) :
    List DeclaredRoot :=
  batchKeys.map (fun key => declareBatchRoot registry key)

/-- The data a run of `runSelectedBatches` produces: the declared wrapper suites, the
resolved effective snapshot-update flag, and the snapshot store after the selected
directories were loaded. -/
structure RunOutcome where
  roots : List DeclaredRoot
  effectiveUpdate : Bool
  store : QuenchSnapshotStore

/-- Embedding of `Quench.runSelectedBatches` (TS source): load the snapshot directories
of the selected batches, resolve the effective update flag
(`updateSnapshots ?? this.snapshots.enableUpdates ?? false`), and declare one tagged
wrapper suite per selected key in order. -/
def runSelectedBatches (registry : Registry) (store : QuenchSnapshotStore)
    (batchKeys : List String) (updateSnapshots : Option Bool) : RunOutcome :=
  let store₁ := loadBatchSnaps registry store batchKeys
  let effective := (updateSnapshots.orElse (fun _ => store₁.enableUpdates)).getD false
  { roots := declareBatches registry batchKeys
    effectiveUpdate := effective
    store := store₁ }

/-- The `EVENT_RUN_END` handler installed by `runSelectedBatches`: the runner
reference is dropped, `updateSnapshots()` is invoked iff the effective flag was true,
and the sticky flag is reset to `null`. -/
def runEnd (outcome : RunOutcome) : QuenchSnapshotStore :=
  let store₁ :=
    if outcome.effectiveUpdate then outcome.store.updateSnapshots else outcome.store
  { store₁ with enableUpdates := none }

/-- Embedding of `Quench.runAllBatches`:
`this.runSelectedBatches([...this._testBatches.keys()])`. -/
def runAllBatches (registry : Registry) (store : QuenchSnapshotStore) : RunOutcome :=
  runSelectedBatches registry store (registry.map Prod.fst) none

/-- The run summary the engine reports at run end: one terminal entry per declared
wrapper suite, with its title and whether its body failed it. -/
def runSummary (outcome : RunOutcome) : List (String × Bool) :=
  outcome.roots.map (fun r => (r.runnable.title, r.body.failed))

end QuenchHub

section SampleValues

/-- A sample host game configuration used by witnesses. -/
def sampleGame : GameData :=
  ⟨["quench", "world"], "dnd5e"⟩

/-- A sample registration callback declaring nothing. -/
def sampleFn : RegistrationFn :=
  fun _ => .ok []

/-- A sample registration callback declaring one test through the context. -/
def sampleFn2 : RegistrationFn :=
  fun context => .ok [context.it "example test"]

/-- A sample snapshot store with the sticky flag set and one dirty record. -/
def sampleStore : QuenchSnapshotStore where
  enableUpdates := some true
  cache := [(("dir", "id"), ⟨"42", true⟩)]

end SampleValues

section ClaimHelpers

/-- With an initialized game, `registerBatch` returns normally: the updated registry
stores the batch under its key and the second component carries the notifications. -/
theorem registerBatch_ok (g : GameData) (batches : Registry) (key : String)
    (fn : RegistrationFn) (context : QuenchBatchRegistrationOptions) :
    ∃ notifs, registerBatch (some g) batches key fn context =
      .ok (mapSet batches key (storedBatchData key fn context), notifs) :=
  ⟨_, rfl⟩

/-- The spec-side key sequence for `runAllBatches`: every registered batch key in
registry iteration (insertion) order. -/
def registryIterationKeys (registry : Registry) : List String :=
  registry.map Prod.fst

end ClaimHelpers

section Claims

/-- C1, counterexample: running a selection whose only key is unregistered declares
the batch-root wrapper suite, but its body completes without failing — the optional
chaining in `this._testBatches.get(key)?.fn(context)` absorbs the failed lookup, so
no suite fails, contradicting the claim that the lookup failure fails that single
batch-root suite. -/
theorem quench_c1_unregisteredKey_rootSuiteDoesNotFail :
    (runSelectedBatches [] {} ["quench.missing"] none).roots.map
        (fun r => (r.runnable.title, r.runnable.batchRoot, r.body.failed)) =
      [("quench.missing_root", true, false)]
    ∧ ¬ ∃ r ∈ (runSelectedBatches [] {} ["quench.missing"] none).roots,
        r.body.failed = true := by
  refine ⟨rfl, ?_⟩
  decide

/-- C1, amended: for every run started by `runSelectedBatches`, each selected key gets
exactly one wrapper suite in order; a registered key runs its registration callback
(whose thrown errors fail only that wrapper), while an unregistered key makes the
wrapper suite body a completed no-op declaring nothing — it does not fail and does
not abort the run, whose summary still covers every selected batch. -/
theorem quench_c1_unregisteredKey_isolated (registry : Registry)
    (store : QuenchSnapshotStore) (batchKeys : List String) (upd : Option Bool) :
    (runSelectedBatches registry store batchKeys upd).roots.map (fun r => r.body) =
      batchKeys.map (fun key =>
        match mapGet registry key with
        | some batch => BodyResult.ofExcept (batch.fn (mkContext key))
        | none => BodyResult.ok [])
    ∧ runSummary (runSelectedBatches registry store batchKeys upd) =
        batchKeys.map (fun key =>
          (key ++ "_root", (batchRootBody registry key (mkContext key)).failed)) := by
  constructor
  · simp only [runSelectedBatches, declareBatches, List.map_map]
    apply List.map_congr_left
    intro key _
    rfl
  · simp only [runSummary, runSelectedBatches, declareBatches, List.map_map]
    apply List.map_congr_left
    intro key _
    rfl

/-- C2, counterexample: `registerBatch` throws when the host game is not initialized,
because the package-name validation calls `getGame()`; so it is not true that it
never throws for every key, callback and options argument. -/
theorem quench_c2_registerBatch_throws_uninitializedGame :
    registerBatch none [] "quench.example" sampleFn {} =
      .error "Game is not initialized yet!" :=
  rfl

/-- C2, amended: provided the host game is initialized, `registerBatch` never throws
for any key, callback and options: unknown package names and duplicate keys surface
only as notifications in the returned list, and the batch definition is stored in the
registry before the call returns. -/
theorem quench_c2_registerBatch_neverThrows_initialized (g : GameData)
    (batches : Registry) (key : String) (fn : RegistrationFn)
    (context : QuenchBatchRegistrationOptions) :
    ∃ updated notifs,
      registerBatch (some g) batches key fn context = .ok (updated, notifs)
      ∧ mapGet updated key = some (storedBatchData key fn context) := by
  obtain ⟨notifs, h⟩ := registerBatch_ok g batches key fn context
  exact ⟨_, notifs, h, mapGet_mapSet_self batches key (storedBatchData key fn context)⟩

/-- C3: registering the same key twice leaves exactly one registry entry for that
key, holding precisely the callback and options of the second registration, and the
wrapper suite body of a later run of that key executes only the latest callback. -/
theorem quench_c3_reregister_replaces (g : GameData) (batches : Registry)
    (hw : (batches.map Prod.fst).Nodup) (key : String)
    (f₁ f₂ : RegistrationFn) (o₁ o₂ : QuenchBatchRegistrationOptions)
    (st₁ st₂ : Registry) (n₁ n₂ : List Notification)
    (h₁ : registerBatch (some g) batches key f₁ o₁ = .ok (st₁, n₁))
    (h₂ : registerBatch (some g) st₁ key f₂ o₂ = .ok (st₂, n₂)) :
    countKey st₂ key = 1
    ∧ mapGet st₂ key = some (storedBatchData key f₂ o₂)
    ∧ ∀ context, batchRootBody st₂ key context = .ofExcept (f₂ context) := by
  obtain ⟨ns₁, e₁⟩ := registerBatch_ok g batches key f₁ o₁
  rw [h₁] at e₁
  injection e₁ with e₁'
  injection e₁' with est₁ _
  obtain ⟨ns₂, e₂⟩ := registerBatch_ok g st₁ key f₂ o₂
  rw [h₂] at e₂
  injection e₂ with e₂'
  injection e₂' with est₂ _
  subst est₁
  subst est₂
  refine ⟨?_, ?_, ?_⟩
  · exact countKey_mapSet _ key _ (nodup_keys_mapSet batches key _ hw)
  · exact mapGet_mapSet_self _ key _
  · intro context
    simp [batchRootBody, mapGet_mapSet_self, storedBatchData]

/-- C3 witness: concrete double registration of one key. -/
theorem quench_c3_reregister_replaces_witness :
    countKey
        (mapSet (mapSet [] "quench.example" (storedBatchData "quench.example" sampleFn {}))
          "quench.example" (storedBatchData "quench.example" sampleFn2 {}))
        "quench.example" = 1
    ∧ mapGet
        (mapSet (mapSet [] "quench.example" (storedBatchData "quench.example" sampleFn {}))
          "quench.example" (storedBatchData "quench.example" sampleFn2 {}))
        "quench.example" = some (storedBatchData "quench.example" sampleFn2 {})
    ∧ batchRootBody
        (mapSet (mapSet [] "quench.example" (storedBatchData "quench.example" sampleFn {}))
          "quench.example" (storedBatchData "quench.example" sampleFn2 {}))
        "quench.example" (mkContext "quench.example") =
        .ofExcept (sampleFn2 (mkContext "quench.example")) := by
  have h := quench_c3_reregister_replaces sampleGame [] (by simp) "quench.example"
    sampleFn sampleFn2 {} {} _ _ _ _ rfl rfl
  exact ⟨h.1, h.2.1, h.2.2 (mkContext "quench.example")⟩

/-- C4: the effective snapshot-update flag of a run is the explicit argument if
non-null, else the sticky store flag if non-null, else false; at run end the sticky
flag is always reset to null, every dirty record is persisted into the backing files
when the effective flag is true, and nothing is persisted when it is false. -/
theorem quench_c4_updateFlag_runEnd (registry : Registry)
    (store : QuenchSnapshotStore) (batchKeys : List String) (explicit : Option Bool)
    (hw : ((runSelectedBatches registry store batchKeys explicit).store.cache.map
      Prod.fst).Nodup) :
    (runSelectedBatches registry store batchKeys explicit).effectiveUpdate =
      (match explicit with
       | some b => b
       | none =>
         match store.enableUpdates with
         | some b => b
         | none => false)
    ∧ (runEnd (runSelectedBatches registry store batchKeys explicit)).enableUpdates =
        none
    ∧ ((runSelectedBatches registry store batchKeys explicit).effectiveUpdate = true →
        (∀ k r,
          mapGet (runSelectedBatches registry store batchKeys explicit).store.cache k =
              some r →
            r.dirty = true →
            mapGet (runEnd (runSelectedBatches registry store batchKeys explicit)).files
                k = some r.value)
        ∧ ∀ e ∈ (runEnd (runSelectedBatches registry store batchKeys explicit)).cache,
            e.2.dirty = false)
    ∧ ((runSelectedBatches registry store batchKeys explicit).effectiveUpdate = false →
        (runEnd (runSelectedBatches registry store batchKeys explicit)).files =
            store.files
        ∧ (runEnd (runSelectedBatches registry store batchKeys explicit)).cache =
            (runSelectedBatches registry store batchKeys explicit).store.cache) := by
  have hstore : (runSelectedBatches registry store batchKeys explicit).store =
      loadBatchSnaps registry store batchKeys := rfl
  refine ⟨?_, ?_, ?_, ?_⟩
  · show ((explicit.orElse
        (fun _ => (loadBatchSnaps registry store batchKeys).enableUpdates)).getD false) = _
    rw [loadBatchSnaps_enableUpdates]
    cases explicit with
    | some b => rfl
    | none => cases store.enableUpdates <;> rfl
  · unfold runEnd
    by_cases h : (runSelectedBatches registry store batchKeys explicit).effectiveUpdate
    · simp [h]
    · simp [h]
  · intro heff
    constructor
    · intro k r hget hd
      have hfiles : (runEnd (runSelectedBatches registry store batchKeys explicit)).files =
          (runSelectedBatches registry store batchKeys explicit).store.updateSnapshots.files := by
        unfold runEnd
        rw [heff]
        rfl
      rw [hfiles]
      exact updateSnapshots_persists _ hw k r hget hd
    · intro e he
      have hcache : (runEnd (runSelectedBatches registry store batchKeys explicit)).cache =
          (runSelectedBatches registry store batchKeys explicit).store.updateSnapshots.cache := by
        unfold runEnd
        rw [heff]
        rfl
      rw [hcache] at he
      exact updateSnapshots_clears _ e he
  · intro heff
    have hre : runEnd (runSelectedBatches registry store batchKeys explicit) =
        { (runSelectedBatches registry store batchKeys explicit).store with
          enableUpdates := none } := by
      unfold runEnd
      rw [heff]
      rfl
    rw [hre, hstore]
    exact ⟨loadBatchSnaps_files registry store batchKeys, rfl⟩

/-- C4 witness: with no explicit argument and the sticky flag set, the run persists
the dirty record and consumes the sticky flag. -/
theorem quench_c4_updateFlag_runEnd_witness :
    (runSelectedBatches [] sampleStore [] none).effectiveUpdate = true
    ∧ (runEnd (runSelectedBatches [] sampleStore [] none)).enableUpdates = none
    ∧ mapGet (runEnd (runSelectedBatches [] sampleStore [] none)).files ("dir", "id") =
        some "42" := by
  have h := quench_c4_updateFlag_runEnd [] sampleStore [] none (by decide)
  have heff : (runSelectedBatches [] sampleStore [] none).effectiveUpdate = true := h.1
  refine ⟨heff, h.2.1, ?_⟩
  exact (h.2.2.1 heff).1 ("dir", "id") ⟨"42", true⟩ rfl rfl

/-- C5: each selected key yields exactly one wrapper suite, in sequence order, named
`<key>_root`, tagged with its batch key and marked as a batch root; and every suite
or test created through the wrapped `describe`/`it` of a batch context carries that
batch key as its owning-batch marker. -/
theorem quench_c5_wrapperSuites_tagged (registry : Registry)
    (store : QuenchSnapshotStore) (batchKeys : List String) (upd : Option Bool) :
    (runSelectedBatches registry store batchKeys upd).roots.map
        (fun r => (r.runnable.title, r.runnable.parentBatch, r.runnable.batchRoot)) =
      batchKeys.map (fun key => (key ++ "_root", some key, true))
    ∧ (∀ key title children,
        ((mkContext key).describe (title, children)).parentBatch = some key
        ∧ ((mkContext key).it title).parentBatch = some key)
    ∧ ∀ (run : Runnable) (key : String),
        (run.withParentBatch key).parentBatch = some key := by
  refine ⟨?_, fun key title children => ⟨rfl, rfl⟩, fun run key => ?_⟩
  · simp only [runSelectedBatches, declareBatches, List.map_map]
    apply List.map_congr_left
    intro key _
    rfl
  · cases run <;> rfl

/-- C6: `runAllBatches` is the run of `runSelectedBatches` over every registered
batch key in registry insertion order, with no explicit update flag. -/
theorem quench_c6_runAllBatches_equiv (registry : Registry)
    (store : QuenchSnapshotStore) :
    runAllBatches registry store =
      runSelectedBatches registry store (registryIterationKeys registry) none :=
  rfl

/-- C7: a comparison outside update mode against an identity with no cached record
fails with the distinguished `MissingSnapshotError` carrying the would-be file path
(leaving the store untouched), the error kind is disjoint from generic assertion
errors, and `handleTestFail` raises the snapshot-update UI flag for it. -/
theorem quench_c7_compare_missingSnapshot (store : QuenchSnapshotStore)
    (dir identity actual : String)
    (h : mapGet store.cache (dir, identity) = none) :
    compareSnapshot store false dir identity actual =
        (.error (.missingSnapshot (snapFilePath dir identity)), store)
    ∧ (TestError.missingSnapshot (snapFilePath dir identity)).isMissingSnapshot = true
    ∧ (∀ a e s, TestError.missingSnapshot (snapFilePath dir identity) ≠
        TestError.assertion a e s)
    ∧ ∀ flag, handleTestFail flag (.missingSnapshot (snapFilePath dir identity)) =
        true := by
  refine ⟨?_, rfl, ?_, fun flag => rfl⟩
  · simp [compareSnapshot, h]
  · intro a e s hc
    cases hc

/-- C7 witness: concrete missing-record comparison on an empty store. -/
theorem quench_c7_compare_missingSnapshot_witness :
    compareSnapshot {} false "batchdir" "suite tests value" "42" =
        (.error (.missingSnapshot (snapFilePath "batchdir" "suite tests value")), {})
    ∧ handleTestFail false
        (.missingSnapshot (snapFilePath "batchdir" "suite tests value")) = true := by
  have h := quench_c7_compare_missingSnapshot {} "batchdir" "suite tests value" "42" rfl
  exact ⟨h.1, h.2.2.2 false⟩

/-- C8: a stored batch definition falls back to the documented defaults for every
omitted option: the display name defaults to the key, the snapshot directory to the
deterministic default directory for the key, and the preselection flag to true. -/
theorem quench_c8_registerBatch_defaults (g : GameData) (batches : Registry)
    (key : String) (fn : RegistrationFn) (context : QuenchBatchRegistrationOptions)
    (updated : Registry) (notifs : List Notification)
    (h : registerBatch (some g) batches key fn context = .ok (updated, notifs)) :
    (context.displayName = none →
      (mapGet updated key).map (fun b => b.displayName) = some key)
    ∧ (context.snapBaseDir = none →
      (mapGet updated key).map (fun b => b.snapBaseDir) =
        some (getDefaultSnapDir key))
    ∧ (context.preSelected = none →
      (mapGet updated key).map (fun b => b.preSelected) = some true) := by
  obtain ⟨ns, e⟩ := registerBatch_ok g batches key fn context
  rw [h] at e
  injection e with e'
  injection e' with eu en
  subst eu
  rw [mapGet_mapSet_self]
  refine ⟨?_, ?_, ?_⟩
  · intro hd
    simp [storedBatchData, hd]
  · intro hd
    simp [storedBatchData, hd]
  · intro hd
    simp [storedBatchData, hd]

/-- C8 witness: registering with the options object omitted entirely stores the
defaults. -/
theorem quench_c8_registerBatch_defaults_witness :
    (mapGet (mapSet [] "quench.example" (storedBatchData "quench.example" sampleFn {}))
        "quench.example").map (fun b => b.displayName) = some "quench.example"
    ∧ (mapGet (mapSet [] "quench.example"
          (storedBatchData "quench.example" sampleFn {}))
        "quench.example").map (fun b => b.snapBaseDir) =
        some (getDefaultSnapDir "quench.example")
    ∧ (mapGet (mapSet [] "quench.example"
          (storedBatchData "quench.example" sampleFn {}))
        "quench.example").map (fun b => b.preSelected) = some true := by
  have h := quench_c8_registerBatch_defaults sampleGame [] "quench.example" sampleFn {}
    _ _ rfl
  exact ⟨h.1 rfl, h.2.1 rfl, h.2.2 rfl⟩

/-- C9: for a key containing a dot, `getBatchNameParts` returns the prefix before the
first dot and the remainder after it, and these reassemble to the original key; for a
key without a dot it returns the key minus its last character and the whole key, and
the reassembly does not reproduce the key. -/
theorem quench_c9_getBatchNameParts_split (key : String) :
    ('.' ∈ key.data →
        (getBatchNameParts key).1.data = key.data.takeWhile (fun c => c != '.')
        ∧ (getBatchNameParts key).2.data =
            (key.data.dropWhile (fun c => c != '.')).tail
        ∧ (getBatchNameParts key).1 ++ "." ++ (getBatchNameParts key).2 = key)
    ∧ ('.' ∉ key.data →
        (getBatchNameParts key).1.data = key.data.dropLast
        ∧ (getBatchNameParts key).2 = key
        ∧ (getBatchNameParts key).1 ++ "." ++ (getBatchNameParts key).2 ≠ key) := by
  have hdot : ("." : String).data = ['.'] := rfl
  constructor
  · intro h
    set d := key.data.takeWhile (fun c => c != '.') with hd_def
    set t := (key.data.dropWhile (fun c => c != '.')).tail with ht_def
    have hidx : jsIndexOf key.data '.' = (d.length : Int) :=
      jsIndexOf_of_mem key.data '.' h
    have hlt : d.length < key.data.length := takeWhile_length_lt '.' key.data h
    have hsplit : key.data = d ++ '.' :: t := takeWhile_split '.' key.data h
    have h1 : (getBatchNameParts key).1.data = d := by
      show jsSlice key.data 0 (some (jsIndexOf key.data '.')) = d
      rw [hidx, jsSlice_take key.data d.length (le_of_lt hlt), hsplit]
      exact List.take_left d ('.' :: t)
    have h2 : (getBatchNameParts key).2.data = t := by
      show jsSlice key.data (jsIndexOf key.data '.' + 1) none = t
      rw [hidx]
      have hcast : ((d.length : Int) + 1) = ((d.length + 1 : Nat) : Int) := by
        push_cast
        ring
      rw [hcast, jsSlice_drop key.data (d.length + 1) (by omega), hsplit]
      have hassoc : d ++ '.' :: t = (d ++ ['.']) ++ t := by simp
      have hlen : d.length + 1 = (d ++ ['.']).length := by simp
      rw [hassoc, hlen]
      exact List.drop_left _ _
    refine ⟨h1, h2, ?_⟩
    apply String.ext
    rw [String.data_append, String.data_append, h1, h2, hdot, hsplit]
    simp
  · intro h
    have hidx : jsIndexOf key.data '.' = -1 := jsIndexOf_of_not_mem key.data '.' h
    have h1 : (getBatchNameParts key).1.data = key.data.dropLast := by
      show jsSlice key.data 0 (some (jsIndexOf key.data '.')) = _
      rw [hidx]
      exact jsSlice_neg_one key.data
    have h2 : (getBatchNameParts key).2 = key := by
      apply String.ext
      show jsSlice key.data (jsIndexOf key.data '.' + 1) none = key.data
      rw [hidx]
      have hzero : (-1 : Int) + 1 = ((0 : Nat) : Int) := by omega
      rw [hzero, jsSlice_drop key.data 0 (by omega), List.drop_zero]
    refine ⟨h1, h2, ?_⟩
    intro hc
    have h2d : (getBatchNameParts key).2.data = key.data := congrArg String.data h2
    have hcd := congrArg String.data hc
    rw [String.data_append, String.data_append, h2d, hdot] at hcd
    have hlen := congrArg List.length hcd
    simp only [List.length_append, List.length_cons, List.length_nil] at hlen
    omega

/-- C9 witness: a key with a dot splits and reassembles; a key without a dot keeps
the whole key as identifier and does not reassemble. -/
theorem quench_c9_getBatchNameParts_split_witness :
    ('.' ∈ ("quench.example" : String).data
      ∧ (getBatchNameParts "quench.example").1 ++ "." ++
          (getBatchNameParts "quench.example").2 = "quench.example")
    ∧ ('.' ∉ ("nodot" : String).data
      ∧ (getBatchNameParts "nodot").2 = "nodot"
      ∧ (getBatchNameParts "nodot").1 ++ "." ++ (getBatchNameParts "nodot").2 ≠
          "nodot") := by
  refine ⟨⟨by decide, ?_⟩, ⟨by decide, ?_, ?_⟩⟩
  · exact ((quench_c9_getBatchNameParts_split "quench.example").1 (by decide)).2.2
  · exact ((quench_c9_getBatchNameParts_split "nodot").2 (by decide)).2.1
  · exact ((quench_c9_getBatchNameParts_split "nodot").2 (by decide)).2.2

/-- C10: a pending suite evaluates to the pending state; otherwise a suite evaluates
to the failure state exactly when one of its direct tests is in the failure state or
one of its child suites recursively evaluates to the failure state, and to the
success state otherwise; tests that are pending or still in progress are never in
the failure state. -/
theorem quench_c10_getSuiteState_spec (s : MSuite) :
    (s.pending = true → getSuiteState s = RState.pending)
    ∧ (s.pending = false →
        ((getSuiteState s = RState.failure ↔
            (∃ t ∈ s.tests, getTestState t = RState.failure)
            ∨ ∃ c ∈ s.suites, getSuiteState c = RState.failure)
         ∧ (getSuiteState s = RState.failure ∨ getSuiteState s = RState.success)))
    ∧ ∀ t : MTest, t.pending = true ∨ t.state = none →
        getTestState t ≠ RState.failure := by
  obtain ⟨p, tests, suites⟩ := s
  refine ⟨?_, ?_, ?_⟩
  · intro hp
    simp only [MSuite.pending] at hp
    subst hp
    simp [getSuiteState]
  · intro hp
    simp only [MSuite.pending] at hp
    subst hp
    simp only [MSuite.tests, MSuite.suites]
    by_cases ht : (tests.map getTestState).all (fun t => t != RState.failure) = true
    · have htests : ∀ t ∈ tests, getTestState t ≠ RState.failure := by
        intro t htm
        have := List.all_eq_true.mp ht (getTestState t) (List.mem_map_of_mem _ htm)
        simpa using this
      by_cases hs : (suiteStatesOf suites).all (fun t => t != RState.failure) = true
      · have hsuites : ∀ c ∈ suites, getSuiteState c ≠ RState.failure := by
          intro c hcm
          have := List.all_eq_true.mp hs (getSuiteState c)
            (by rw [suiteStatesOf_eq_map]; exact List.mem_map_of_mem _ hcm)
          simpa using this
        have hval : getSuiteState (.mk false tests suites) = RState.success := by
          simp [getSuiteState, ht, hs]
        rw [hval]
        refine ⟨⟨fun hc => absurd hc (by simp), fun hor => ?_⟩, Or.inr rfl⟩
        rcases hor with ⟨t, htm, hf⟩ | ⟨c, hcm, hf⟩
        · exact absurd hf (htests t htm)
        · exact absurd hf (hsuites c hcm)
      · have hex : ∃ c ∈ suites, getSuiteState c = RState.failure := by
          simp only [List.all_eq_true, not_forall] at hs
          rcases hs with ⟨x, hxm, hxf⟩
          rw [suiteStatesOf_eq_map] at hxm
          rcases List.mem_map.mp hxm with ⟨c, hcm, rfl⟩
          refine ⟨c, hcm, ?_⟩
          simpa using hxf
        have hval : getSuiteState (.mk false tests suites) = RState.failure := by
          simp [getSuiteState, ht, hs]
        rw [hval]
        exact ⟨⟨fun _ => Or.inr hex, fun _ => rfl⟩, Or.inl rfl⟩
    · have hex : ∃ t ∈ tests, getTestState t = RState.failure := by
        simp only [List.all_eq_true, not_forall] at ht
        rcases ht with ⟨x, hxm, hxf⟩
        rcases List.mem_map.mp hxm with ⟨t, htm, rfl⟩
        refine ⟨t, htm, ?_⟩
        simpa using hxf
      have hval : getSuiteState (.mk false tests suites) = RState.failure := by
        have ht' : (tests.map getTestState).all (fun t => t != RState.failure) = false :=
          by simpa using ht
        simp [getSuiteState, ht']
      rw [hval]
      exact ⟨⟨fun _ => Or.inl hex, fun _ => rfl⟩, Or.inl rfl⟩
  · intro t hcase
    rcases hcase with hpend | hstate
    · simp [getTestState, hpend]
    · by_cases hpend : t.pending
      · simp [getTestState, hpend]
      · simp [getTestState, hpend, hstate]

/-- C10 witness: a non-pending suite with one failed direct test evaluates to the
failure state. -/
theorem quench_c10_getSuiteState_spec_witness :
    getSuiteState (.mk false [⟨false, some TestResult.failed⟩] []) = RState.failure :=
  ((quench_c10_getSuiteState_spec (.mk false [⟨false, some TestResult.failed⟩] [])).2.1
      rfl).1.mpr
    (Or.inl ⟨⟨false, some TestResult.failed⟩, by decide, by decide⟩)

end Claims
